import Mathlib

/-
Verification of the YAML-to-s-expression converter (src/main.py) against its
specification.  The Python source is shallowly embedded: the converter class
holds no mutable state, so its methods become plain functions; the key_prefix
configuration field becomes an explicit argument named pfx; the parsed YAML
value becomes the inductive type Value; Python strings become Lean String
values (sequences of Unicode scalar values, matching Python code points).

Model scope notes, referenced from the individual definitions:
- The regex classes \w and \d of the Python re module are Unicode aware; the
  embedding defines them by their ASCII contents, so statements about the
  symbol classifier are exact for ASCII strings (the amended claims C1 and C2
  carry an explicit ASCII hypothesis for this reason).
- The dollar anchor of an un-flagged Python regex matches at the end of the
  string and also just before a newline that is the last character of the
  string.  This is embedded faithfully (beforeDollar below); it is the source
  of the counterexamples to claims C1 and C2.
-/

namespace YamlToSexp

/-! ## Character classes and escaping (src/main.py lines 12, 22-38) -/

/-- Control characters of the escape regex class [\x00-\x1f\x7f]
(src/main.py line 12). -/
def isCtrl (c : Char) : Bool := c.toNat ≤ 0x1f || c.toNat == 0x7f

/-- The compiled escape_pattern regex (["\\]|[\x00-\x1f\x7f]) as a
per-character test; every alternative of the pattern matches exactly one
character (src/main.py line 12). -/
def escape_pattern (c : Char) : Bool := (c == '"' || c == '\\') || isCtrl c

/-- Lowercase hexadecimal digit, as produced by the Python format code x. -/
def hexDigit (n : Nat) : Char :=
  if n < 10 then Char.ofNat (48 + n) else Char.ofNat (87 + n)

/-- Two-digit lowercase hexadecimal rendering of a code point below 0x100,
as the Python format string 02x produces it. -/
def hex2 (n : Nat) : String := String.mk [hexDigit (n / 16), hexDigit (n % 16)]

/-- escape_char (src/main.py lines 22-35): the replacement applied to one
character matched by escape_pattern. -/
def escape_char (c : Char) : String :=
  if c == '"' then "\\\""
  else if c == '\\' then "\\\\"
  else if c == '\n' then "\\n"
  else if c == '\r' then "\\r"
  else if c == '\t' then "\\t"
  else "\\x" ++ hex2 c.toNat

/-- escape_string (src/main.py lines 37-38): re.sub with a pattern whose every
match is a single character, hence a per-character substitution. -/
def escape_string (s : String) : String :=
  String.join (s.data.map fun c =>
    if escape_pattern c then escape_char c else String.singleton c)

/-! ## Symbol classification (src/main.py lines 14-20, 40-44) -/

/-- Regex class [A-Z]. -/
def upperAZ (c : Char) : Bool := 0x41 ≤ c.toNat && c.toNat ≤ 0x5a

/-- Regex class [a-z]. -/
def lowerAZ (c : Char) : Bool := 0x61 ≤ c.toNat && c.toNat ≤ 0x7a

/-- Regex class \d, by its ASCII contents (the Python re module additionally
accepts non-ASCII Unicode decimal digits, outside the ASCII scope of this
model). -/
def digit09 (c : Char) : Bool := 0x30 ≤ c.toNat && c.toNat ≤ 0x39

/-- Regex class \w, by its ASCII contents (the Python re module additionally
accepts non-ASCII Unicode word characters, outside the ASCII scope of this
model). -/
def wordChar (c : Char) : Bool := upperAZ c || lowerAZ c || digit09 c || c == '_'

/-- First symbol pattern [A-Z]\d{4,6} between its anchors
(src/main.py line 16). -/
def pat1 : List Char → Bool
  | [] => false
  | c :: rest =>
    upperAZ c && rest.all digit09 && decide (4 ≤ rest.length) && decide (rest.length ≤ 6)

/-- Second symbol pattern [A-Z]{2,3} between its anchors
(src/main.py line 17). -/
def pat2 (cs : List Char) : Bool :=
  cs.all upperAZ && (decide (cs.length = 2) || decide (cs.length = 3))

/-- Third symbol pattern [a-zA-Z_]\w* between its anchors
(src/main.py line 18). -/
def pat3 : List Char → Bool
  | [] => false
  | c :: rest => (upperAZ c || lowerAZ c || c == '_') && rest.all wordChar

/-- The dollar anchor of an un-flagged Python regex matches at the end of the
string and also just before a newline that is the last character.  No symbol
pattern class accepts a newline, so matching an anchored pattern against s is
matching its body against s with one final newline removed. -/
def beforeDollar (cs : List Char) : List Char :=
  if cs.getLast? == some '\n' then cs.dropLast else cs

/-- symbol_regex.match: the alternation of the three anchored symbol_patterns
(src/main.py lines 15-20), each applied with the Python dollar-anchor
semantics. -/
def symbol_regex_match (s : String) : Bool :=
  pat1 (beforeDollar s.data) || pat2 (beforeDollar s.data) || pat3 (beforeDollar s.data)

/-- is_symbol (src/main.py lines 40-44): reject the empty string and strings of
more than 20 code points, then match the symbol regex. -/
def is_symbol (s : String) : Bool :=
  if s.length = 0 || 20 < s.length then false
  else symbol_regex_match s

/-! ## Dates, floats and the value tree (src/main.py lines 46-52, 90-103) -/

/-- A Python datetime.date: a year, month, day triple. -/
structure PyDate where
  year : Nat
  month : Nat
  day : Nat

/-- A Python datetime.datetime: a date plus a time of day.  The encoder
discards the time fields (src/main.py lines 100-103). -/
structure PyDateTime where
  date : PyDate
  hour : Nat
  minute : Nat
  second : Nat

/-- Python format code 02d on a natural number: left-pad the decimal digits
with zeros to a minimum width of 2. -/
def pad2 (n : Nat) : String := if n < 10 then "0" ++ toString n else toString n

/-- format_date (src/main.py lines 46-47). -/
def format_date (d : PyDate) : String :=
  "(make-date " ++ toString d.year ++ " " ++ pad2 d.month ++ " " ++ pad2 d.day ++ ")"

/-- A Python float as the encoder distinguishes them (src/main.py lines
90-98): NaN, the two infinities, or a finite value.  Binary64 arithmetic is
outside this embedding, so a finite float is carried together with the text
that the Python str builtin produces for it. -/
inductive PyFloat where
  | nan : PyFloat
  | inf : PyFloat
  | neginf : PyFloat
  | finite (txt : String) : PyFloat

/-- The float branch of to_sexp (src/main.py lines 90-98): the three special
values first, then str(data). -/
def float_sexp : PyFloat → String
  | .nan => "+nan.0"
  | .inf => "+inf.0"
  | .neginf => "-inf.0"
  | .finite txt => txt

/-- The well-formed parsed YAML values the encoder consumes: the Value sum
type of the specification data model.  Mappings are ordered association lists
(Python dicts preserve insertion order).  The generic-iterable fallback of
src/main.py lines 108-112 has no inhabitant here: a well-formed Value tree
never reaches it. -/
inductive Value where
  | null : Value
  | boolV (b : Bool) : Value
  | intV (n : Int) : Value
  | floatV (f : PyFloat) : Value
  | text (s : String) : Value
  | dateV (d : PyDate) : Value
  | datetimeV (dt : PyDateTime) : Value
  | sequence (xs : List Value) : Value
  | mapping (ps : List (String × Value)) : Value

/-- isinstance(item, dict) on a Value (src/main.py line 52). -/
def isDict : Value → Bool
  | .mapping _ => true
  | _ => false

/-- is_list_of_records (src/main.py lines 49-52): a non-empty list whose every
element is a dict. -/
def is_list_of_records (data : List Value) : Bool :=
  !data.isEmpty && data.all isDict

/-! ## The recursive encoder (src/main.py lines 54-112) and the top-level
output (line 139).  The recursion over child lists is spelled out as the
mutually recursive fragment builders below; the lemmas pairFrags_eq_map,
itemFrags_eq_map and elemFrags_eq_map restate them as List.map. -/

mutual

/-- to_sexp (src/main.py lines 54-112); pfx is the key_prefix configuration
field.  Branch order follows the source; the constructors are disjoint, so
the Python isinstance ordering (bool before int, datetime before date) is
captured by the separate constructors. -/
def toSexp (pfx : String) : Value → String
  | .mapping ps =>
    if ps.isEmpty then "()"
    else String.intercalate " " (pairFrags pfx ps)
  | .sequence xs =>
    if xs.isEmpty then "()"
    else if is_list_of_records xs then String.intercalate " " (itemFrags pfx xs)
    else "(" ++ String.intercalate " " (elemFrags pfx xs) ++ ")"
  | .text s =>
    if is_symbol s then "\x27" ++ s
    else "\"" ++ escape_string s ++ "\""
  | .boolV b => if b then "#t" else "#f"
  | .intV n => toString n
  | .floatV f => float_sexp f
  | .dateV d => format_date d
  | .datetimeV dt => format_date dt.date
  | .null => "nil"

/-- The pair fragments of a mapping (src/main.py lines 59-63). -/
def pairFrags (pfx : String) : List (String × Value) → List String
  | [] => []
  | (k, v) :: rest =>
    ("(" ++ pfx ++ ":" ++ k ++ " " ++ toSexp pfx v ++ ")") :: pairFrags pfx rest

/-- The item fragments of a list of records (src/main.py lines 72-75). -/
def itemFrags (pfx : String) : List Value → List String
  | [] => []
  | v :: rest =>
    ("(" ++ pfx ++ ":item " ++ toSexp pfx v ++ ")") :: itemFrags pfx rest

/-- The element fragments of a generic list (src/main.py line 78). -/
def elemFrags (pfx : String) : List Value → List String
  | [] => []
  | v :: rest => toSexp pfx v :: elemFrags pfx rest

end

/-- The program output for a parsed document (src/main.py line 139): the
recursive encoding of the root wrapped in one pair of parentheses, with the
default key prefix "yaml" of the converter constructed on line 136. -/
def encode (root : Value) : String := "(" ++ toSexp "yaml" root ++ ")"

/-! ## Tree size and a fuel-indexed reading of the recursion.  The fuel
version returns none when the recursion does not finish within the given
call depth; claim C8 states that the size of the tree always suffices. -/

mutual

/-- The number of Value nodes of a tree. -/
def sizeV : Value → Nat
  | .sequence xs => 1 + sizeL xs
  | .mapping ps => 1 + sizeP ps
  | _ => 1

/-- The number of Value nodes below a sequence. -/
def sizeL : List Value → Nat
  | [] => 0
  | v :: rest => sizeV v + sizeL rest

/-- The number of Value nodes below a mapping. -/
def sizeP : List (String × Value) → Nat
  | [] => 0
  | (_, v) :: rest => sizeV v + sizeP rest

end

mutual

/-- to_sexp with an explicit recursion-depth budget: one unit of fuel is
consumed by every recursive call into toSexpF, and none models a recursion
that does not finish within the budget. -/
def toSexpF (pfx : String) : Nat → Value → Option String
  | 0, _ => none
  | n + 1, .mapping ps =>
    if ps.isEmpty then some "()"
    else (pairFragsF pfx n ps).map (String.intercalate " ")
  | n + 1, .sequence xs =>
    if xs.isEmpty then some "()"
    else if is_list_of_records xs then (itemFragsF pfx n xs).map (String.intercalate " ")
    else (elemFragsF pfx n xs).map
      (fun frags => "(" ++ String.intercalate " " frags ++ ")")
  | _ + 1, .text s =>
    some (if is_symbol s then "\x27" ++ s else "\"" ++ escape_string s ++ "\"")
  | _ + 1, .boolV b => some (if b then "#t" else "#f")
  | _ + 1, .intV n => some (toString n)
  | _ + 1, .floatV f => some (float_sexp f)
  | _ + 1, .dateV d => some (format_date d)
  | _ + 1, .datetimeV dt => some (format_date dt.date)
  | _ + 1, .null => some "nil"

/-- Fuel-indexed pair fragments of a mapping. -/
def pairFragsF (pfx : String) (n : Nat) : List (String × Value) → Option (List String)
  | [] => some []
  | (k, v) :: rest =>
    match toSexpF pfx n v, pairFragsF pfx n rest with
    | some sv, some srest => some (("(" ++ pfx ++ ":" ++ k ++ " " ++ sv ++ ")") :: srest)
    | _, _ => none

/-- Fuel-indexed item fragments of a list of records. -/
def itemFragsF (pfx : String) (n : Nat) : List Value → Option (List String)
  | [] => some []
  | v :: rest =>
    match toSexpF pfx n v, itemFragsF pfx n rest with
    | some sv, some srest => some (("(" ++ pfx ++ ":item " ++ sv ++ ")") :: srest)
    | _, _ => none

/-- Fuel-indexed element fragments of a generic list. -/
def elemFragsF (pfx : String) (n : Nat) : List Value → Option (List String)
  | [] => some []
  | v :: rest =>
    match toSexpF pfx n v, elemFragsF pfx n rest with
    | some sv, some srest => some (sv :: srest)
    | _, _ => none

end

mutual

/-- Absence of the Mapping variant anywhere in a tree (claim C10). -/
def noMapping : Value → Bool
  | .mapping _ => false
  | .sequence xs => noMappingL xs
  | _ => true

/-- Absence of the Mapping variant anywhere below a sequence. -/
def noMappingL : List Value → Bool
  | [] => true
  | v :: rest => noMapping v && noMappingL rest

end

/-! ## Helper lemmas -/

/-- The pair fragments as a List.map. -/
theorem pairFrags_eq_map (pfx : String) (ps : List (String × Value)) :
    pairFrags pfx ps =
      ps.map fun kv => "(" ++ pfx ++ ":" ++ kv.1 ++ " " ++ toSexp pfx kv.2 ++ ")" := by
  induction ps with
  | nil => rfl
  | cons kv rest ih => obtain ⟨k, v⟩ := kv; simp [pairFrags, ih]

/-- The item fragments as a List.map. -/
theorem itemFrags_eq_map (pfx : String) (xs : List Value) :
    itemFrags pfx xs = xs.map fun r => "(" ++ pfx ++ ":item " ++ toSexp pfx r ++ ")" := by
  induction xs with
  | nil => rfl
  | cons v rest ih => simp [itemFrags, ih]

/-- The element fragments as a List.map. -/
theorem elemFrags_eq_map (pfx : String) (xs : List Value) :
    elemFrags pfx xs = xs.map (toSexp pfx) := by
  induction xs with
  | nil => rfl
  | cons v rest ih => simp [elemFrags, ih]

/-- Every tree has at least one node. -/
theorem sizeV_pos (v : Value) : 1 ≤ sizeV v := by
  cases v <;> simp [sizeV]

/-- The fuel-indexed recursion finishes and agrees with toSexp whenever the
fuel bounds the node count of the tree. -/
theorem toSexpF_complete (pfx : String) :
    ∀ n, ∀ v, sizeV v ≤ n → toSexpF pfx n v = some (toSexp pfx v) := by
  intro n
  induction n with
  | zero =>
    intro v hv
    exact absurd hv (by have := sizeV_pos v; omega)
  | succ n ih =>
    intro v hv
    cases v with
    | null => rfl
    | boolV b => rfl
    | intV m => rfl
    | floatV f => rfl
    | text s => rfl
    | dateV d => rfl
    | datetimeV dt => rfl
    | mapping ps =>
      have hps : sizeP ps ≤ n := by simp [sizeV] at hv; omega
      have aux : ∀ qs, sizeP qs ≤ n → pairFragsF pfx n qs = some (pairFrags pfx qs) := by
        intro qs
        induction qs with
        | nil => intro _; rfl
        | cons kv rest ihq =>
          obtain ⟨k, v⟩ := kv
          intro hq
          simp [sizeP] at hq
          simp [pairFragsF, pairFrags, ih v (by omega), ihq (by omega)]
      by_cases he : ps.isEmpty
      · simp [toSexpF, toSexp, he]
      · simp [toSexpF, toSexp, he, aux ps hps]
    | sequence xs =>
      have hxs : sizeL xs ≤ n := by simp [sizeV] at hv; omega
      have auxI : ∀ ys, sizeL ys ≤ n → itemFragsF pfx n ys = some (itemFrags pfx ys) := by
        intro ys
        induction ys with
        | nil => intro _; rfl
        | cons v rest ihy =>
          intro hy
          simp [sizeL] at hy
          simp [itemFragsF, itemFrags, ih v (by omega), ihy (by omega)]
      have auxE : ∀ ys, sizeL ys ≤ n → elemFragsF pfx n ys = some (elemFrags pfx ys) := by
        intro ys
        induction ys with
        | nil => intro _; rfl
        | cons v rest ihy =>
          intro hy
          simp [sizeL] at hy
          simp [elemFragsF, elemFrags, ih v (by omega), ihy (by omega)]
      by_cases he : xs.isEmpty
      · simp [toSexpF, toSexp, he]
      · by_cases hr : is_list_of_records xs
        · simp [toSexpF, toSexp, he, hr, auxI xs hxs]
        · simp [toSexpF, toSexp, he, hr, auxE xs hxs]

/-- A tree without mappings is not a dict. -/
theorem noMapping_isDict {v : Value} (h : noMapping v = true) : isDict v = false := by
  cases v <;> simp_all [noMapping, isDict]

/-- A non-empty list without mappings is not a list of records. -/
theorem records_false_of_noMapping {xs : List Value} (hne : xs.isEmpty = false)
    (h : noMappingL xs = true) : is_list_of_records xs = false := by
  cases xs with
  | nil => simp at hne
  | cons y ys =>
    simp [noMappingL, Bool.and_eq_true] at h
    simp [is_list_of_records, List.all_cons, noMapping_isDict h.1]

/-- On trees without mappings the fuel-indexed encoder ignores the key
prefix. -/
theorem toSexpF_irrel (p q : String) :
    ∀ n v, noMapping v = true → toSexpF p n v = toSexpF q n v := by
  intro n
  induction n with
  | zero => intro v _; cases v <;> rfl
  | succ n ih =>
    intro v hv
    cases v with
    | null => rfl
    | boolV b => rfl
    | intV m => rfl
    | floatV f => rfl
    | text s => rfl
    | dateV d => rfl
    | datetimeV dt => rfl
    | mapping ps => simp [noMapping] at hv
    | sequence xs =>
      have hl : noMappingL xs = true := by simpa [noMapping] using hv
      by_cases he : xs.isEmpty
      · simp [toSexpF, he]
      · have hr : is_list_of_records xs = false :=
          records_false_of_noMapping (by simpa using he) hl
        have aux : ∀ ys, noMappingL ys = true → elemFragsF p n ys = elemFragsF q n ys := by
          intro ys
          induction ys with
          | nil => intro _; rfl
          | cons y rest ihy =>
            intro hy
            simp [noMappingL, Bool.and_eq_true] at hy
            simp [elemFragsF, ih y hy.1, ihy hy.2]
        simp [toSexpF, he, hr, aux xs hl]

/-! ## The symbol shapes as claim C1 words them.  These follow the claim
text, not the source: the three patterns applied to the raw character list,
with no allowance for a trailing newline. -/

/-- Claim wording of pattern 1: one uppercase ASCII letter followed by 4-6
ASCII digits. -/
def specClaimPat1 : List Char → Prop
  | [] => False
  | c :: rest =>
    upperAZ c = true ∧ (∀ d ∈ rest, digit09 d = true) ∧
      4 ≤ rest.length ∧ rest.length ≤ 6

/-- Claim wording of pattern 2: exactly 2-3 uppercase ASCII letters. -/
def specClaimPat2 (cs : List Char) : Prop :=
  (∀ c ∈ cs, upperAZ c = true) ∧ (cs.length = 2 ∨ cs.length = 3)

/-- Claim wording of pattern 3: an ASCII letter or underscore followed by
zero or more ASCII letters, digits, or underscores. -/
def specClaimPat3 : List Char → Prop
  | [] => False
  | c :: rest =>
    (upperAZ c = true ∨ lowerAZ c = true ∨ c = '_') ∧ ∀ d ∈ rest, wordChar d = true

/-- The symbol characterization exactly as claim C1 states it: length between
1 and 20 inclusive and at least one of the three patterns matching the whole
string. -/
def specClaimSymbol (s : String) : Prop :=
  1 ≤ s.length ∧ s.length ≤ 20 ∧
    (specClaimPat1 s.data ∨ specClaimPat2 s.data ∨ specClaimPat3 s.data)

/-- ASCII-only strings, the scope on which the embedding of the Python
regex classes \w and \d is exact. -/
def asciiOnly (s : String) : Bool := s.data.all fun c => c.toNat < 128

/-- The executable first pattern agrees with its declarative reading. -/
theorem pat1_iff (cs : List Char) : pat1 cs = true ↔ specClaimPat1 cs := by
  cases cs with
  | nil => simp [pat1, specClaimPat1]
  | cons c rest =>
    simp [pat1, specClaimPat1, List.all_eq_true, and_assoc]

/-- The executable second pattern agrees with its declarative reading. -/
theorem pat2_iff (cs : List Char) : pat2 cs = true ↔ specClaimPat2 cs := by
  simp [pat2, specClaimPat2, List.all_eq_true]

/-- The executable third pattern agrees with its declarative reading. -/
theorem pat3_iff (cs : List Char) : pat3 cs = true ↔ specClaimPat3 cs := by
  cases cs with
  | nil => simp [pat3, specClaimPat3]
  | cons c rest =>
    simp [pat3, specClaimPat3, List.all_eq_true, and_assoc, or_assoc]

/-- A successfully matched symbol body consists of word characters only. -/
theorem pats_wordChar {cs : List Char}
    (h : (pat1 cs || pat2 cs || pat3 cs) = true) : ∀ c ∈ cs, wordChar c = true := by
  intro c hc
  have hsplit : pat1 cs = true ∨ pat2 cs = true ∨ pat3 cs = true := by
    simpa [Bool.or_eq_true, or_assoc] using h
  rcases hsplit with h1 | h2 | h3
  · cases cs with
    | nil => simp [pat1] at h1
    | cons c0 rest =>
      simp [pat1, List.all_eq_true, and_assoc] at h1
      rcases List.mem_cons.mp hc with rfl | hmem
      · simp [wordChar, h1.1]
      · simp [wordChar, h1.2.1 c hmem]
  · simp [pat2, List.all_eq_true, and_assoc] at h2
    simp [wordChar, h2.1 c hc]
  · cases cs with
    | nil => simp [pat3] at h3
    | cons c0 rest =>
      simp [pat3, List.all_eq_true, and_assoc, or_assoc] at h3
      rcases List.mem_cons.mp hc with rfl | hmem
      · rcases h3.1 with hu | hl | hu
        · simp [wordChar, hu]
        · simp [wordChar, hl]
        · simp [wordChar, hu]
      · exact h3.2 c hmem

/-- A word character is not a double quote. -/
theorem wordChar_not_quote {c : Char} (h : wordChar c = true) : c ≠ '"' := by
  rintro rfl; revert h; decide

/-- A word character is not a backslash. -/
theorem wordChar_not_backslash {c : Char} (h : wordChar c = true) : c ≠ '\\' := by
  rintro rfl; revert h; decide

/-- A word character is not a control character. -/
theorem wordChar_not_ctrl {c : Char} (h : wordChar c = true) : isCtrl c = false := by
  by_cases hu : c = '_'
  · subst hu; decide
  · simp only [wordChar, upperAZ, lowerAZ, digit09, Bool.or_eq_true, Bool.and_eq_true,
      decide_eq_true_eq, beq_iff_eq, or_assoc] at h
    rcases h with h | h | h | h
    · simp [isCtrl]; omega
    · simp [isCtrl]; omega
    · simp [isCtrl]; omega
    · exact absurd h hu

/-- A true is_symbol verdict comes from a successful regex match. -/
theorem is_symbol_match {s : String} (h : is_symbol s = true) :
    symbol_regex_match s = true := by
  unfold is_symbol at h
  split at h
  · exact absurd h (by simp)
  · exact h

/-- The claim-worded symbol characterization, decided through the executable
patterns. -/
theorem specClaimSymbol_decide (s : String) :
    specClaimSymbol s ↔
      (decide (1 ≤ s.length) && decide (s.length ≤ 20) &&
        (pat1 s.data || pat2 s.data || pat3 s.data)) = true := by
  simp [specClaimSymbol, pat1_iff, pat2_iff, pat3_iff, or_assoc, and_assoc]

/-! ## The claims -/

/-- Claim C1 is false as stated: the string consisting of two uppercase
letters followed by a newline has length 3 and matches none of the three
patterns of the claim (it contains a character that is not an ASCII letter,
digit or underscore), yet is_symbol accepts it, because the dollar anchor of
the Python patterns also matches just before a final newline. -/
theorem c1_counterexample :
    is_symbol "AB\n" = true ∧ ¬ specClaimSymbol "AB\n" := by
  constructor
  · decide
  · rw [specClaimSymbol_decide]
    decide

/-- Claim C1 amended: on ASCII strings, is_symbol accepts exactly the strings
of length 1 to 20 whose characters, after removing one final newline if
present, match one of the three claimed patterns (the un-flagged Python
dollar anchor also matches just before a string-final newline; on non-ASCII
strings the Python classes backslash-w and backslash-d additionally accept
non-ASCII word and digit characters, outside the scope of this model). -/
theorem c1_amended (s : String) (hA : asciiOnly s = true) :
    is_symbol s = true ↔
      1 ≤ s.length ∧ s.length ≤ 20 ∧
        (specClaimPat1 (beforeDollar s.data) ∨ specClaimPat2 (beforeDollar s.data) ∨
          specClaimPat3 (beforeDollar s.data)) := by
  unfold is_symbol
  split
  next hg =>
    have hg2 : s.length = 0 ∨ 20 < s.length := by simpa using hg
    constructor
    · intro hh; exact absurd hh (by simp)
    · rintro ⟨h1, h2, -⟩; rcases hg2 with hg2 | hg2 <;> omega
  next hg =>
    have hg2 : ¬(s.length = 0 ∨ 20 < s.length) := by simpa using hg
    unfold symbol_regex_match
    simp only [Bool.or_eq_true, pat1_iff, pat2_iff, pat3_iff, or_assoc]
    constructor
    · intro hp; exact ⟨by omega, by omega, hp⟩
    · rintro ⟨-, -, hp⟩; exact hp

/-- Witness for the amended claim C1 at the concrete symbol A1234. -/
theorem c1_witness :
    asciiOnly "A1234" = true ∧
      (is_symbol "A1234" = true ↔
        1 ≤ "A1234".length ∧ "A1234".length ≤ 20 ∧
          (specClaimPat1 (beforeDollar "A1234".data) ∨
            specClaimPat2 (beforeDollar "A1234".data) ∨
            specClaimPat3 (beforeDollar "A1234".data))) :=
  ⟨by decide, c1_amended "A1234" (by decide)⟩

/-- Claim C2 is false as stated: the two-character string of a lowercase
letter and a newline is accepted by is_symbol, so encode emits it
quote-prefixed and unescaped, although it contains a control character. -/
theorem c2_counterexample :
    is_symbol "a\n" = true ∧
      toSexp "yaml" (Value.text "a\n") = "\x27a\n" ∧
      '\n' ∈ "a\n".data ∧ isCtrl '\n' = true :=
  ⟨by decide, by decide, by decide, by decide⟩

/-- Claim C2 amended: an ASCII Text value is encoded either quote-prefixed
verbatim (when is_symbol accepts it) or as a double-quoted escaped literal
(when it does not), never both, and an accepted symbol contains no double
quote, no backslash and no control character apart from a possible single
final newline.  The asciiOnly hypothesis marks the scope on which the
embedding of the Python classes backslash-w and backslash-d is exact, as in
the amended claim C1: outside it CPython accepts further non-ASCII symbols,
emitted quote-prefixed as well. -/
theorem c2_amended (pfx s : String) (hA : asciiOnly s = true) :
    (is_symbol s = true →
      toSexp pfx (Value.text s) = "\x27" ++ s ∧
        ∀ c ∈ beforeDollar s.data, c ≠ '"' ∧ c ≠ '\\' ∧ isCtrl c = false) ∧
    (is_symbol s = false →
      toSexp pfx (Value.text s) = "\"" ++ escape_string s ++ "\"") ∧
    ("\x27" ++ s : String) ≠ "\"" ++ escape_string s ++ "\"" := by
  refine ⟨?_, ?_, ?_⟩
  · intro h
    refine ⟨by simp [toSexp, h], ?_⟩
    intro c hc
    have hw : wordChar c = true := pats_wordChar (is_symbol_match h) c hc
    exact ⟨wordChar_not_quote hw, wordChar_not_backslash hw, wordChar_not_ctrl hw⟩
  · intro h; simp [toSexp, h]
  · intro hbad
    have hd := congrArg String.data hbad
    rw [String.data_append, String.data_append, String.data_append] at hd
    have h1 : "\x27".data = ['\x27'] := rfl
    have h2 : "\"".data = ['"'] := rfl
    rw [h1, h2] at hd
    simp at hd

/-- Witness for the amended claim C2 at a concrete accepted ASCII symbol. -/
theorem c2_witness :
    asciiOnly "abc" = true ∧ is_symbol "abc" = true ∧
      toSexp "yaml" (Value.text "abc") = "\x27" ++ "abc" :=
  ⟨by decide, by decide, ((c2_amended "yaml" "abc" (by decide)).1 (by decide)).1⟩

/-- Claim C3: the empty sequence is never classified as a list of records; a
non-empty sequence whose every element is a Mapping is encoded as the
item-wrapped fragments joined by single spaces with no outer parentheses at
that level; any other non-empty sequence is encoded as the space-joined
recursively encoded fragments wrapped in exactly one pair of parentheses. -/
theorem c3_sequence_dispatch (pfx : String) (xs : List Value) (hne : xs ≠ []) :
    is_list_of_records [] = false ∧
    ((∀ v ∈ xs, ∃ ps, v = Value.mapping ps) →
      toSexp pfx (Value.sequence xs) =
        String.intercalate " "
          (xs.map fun r => "(" ++ pfx ++ ":item " ++ toSexp pfx r ++ ")")) ∧
    ((¬ ∀ v ∈ xs, ∃ ps, v = Value.mapping ps) →
      toSexp pfx (Value.sequence xs) =
        "(" ++ String.intercalate " " (xs.map (toSexp pfx)) ++ ")") := by
  have he : xs.isEmpty = false := by
    cases xs with
    | nil => exact absurd rfl hne
    | cons y ys => rfl
  refine ⟨rfl, ?_, ?_⟩
  · intro hall
    have hrec : is_list_of_records xs = true := by
      simp only [is_list_of_records, he, Bool.not_false, Bool.true_and, List.all_eq_true]
      intro v hv
      obtain ⟨ps, rfl⟩ := hall v hv
      rfl
    simp [toSexp, he, hrec, itemFrags_eq_map]
  · intro hnall
    have hrec : is_list_of_records xs = false := by
      push_neg at hnall
      obtain ⟨v, hv, hvnot⟩ := hnall
      have hvd : isDict v = false := by
        cases v with
        | mapping ps => exact absurd rfl (hvnot ps)
        | null => rfl
        | boolV b => rfl
        | intV n => rfl
        | floatV f => rfl
        | text s => rfl
        | dateV d => rfl
        | datetimeV dt => rfl
        | sequence ys => rfl
      simp only [is_list_of_records, Bool.and_eq_false_iff]
      right
      simp only [List.all_eq_false]
      exact ⟨v, hv, by simp [hvd]⟩
    simp [toSexp, he, hrec, elemFrags_eq_map]

/-- Witness for claim C3 at a concrete one-element scalar sequence. -/
theorem c3_witness :
    (([Value.intV 1] : List Value) ≠ []) ∧
      toSexp "yaml" (Value.sequence [Value.intV 1]) =
        "(" ++ String.intercalate " " ([Value.intV 1].map (toSexp "yaml")) ++ ")" := by
  have hne : ([Value.intV 1] : List Value) ≠ [] := by simp
  have hnot : ¬ ∀ v ∈ ([Value.intV 1] : List Value), ∃ ps, v = Value.mapping ps := by
    intro hall
    obtain ⟨ps, hps⟩ := hall (Value.intV 1) (by simp)
    simp at hps
  exact ⟨hne, (c3_sequence_dispatch "yaml" [Value.intV 1] hne).2.2 hnot⟩

/-- Claim C4: a non-empty mapping is encoded as the prefixed key/value pair
fragments in insertion order joined by single spaces with no enclosing
parentheses at that level, and the program output is the recursive encoding
of the root wrapped in exactly one extra pair of parentheses,
unconditionally; the specification example is checked concretely. -/
theorem c4_mapping_and_wrap (pfx : String) (ps : List (String × Value)) (hne : ps ≠ []) :
    toSexp pfx (Value.mapping ps) =
      String.intercalate " "
        (ps.map fun kv => "(" ++ pfx ++ ":" ++ kv.1 ++ " " ++ toSexp pfx kv.2 ++ ")") ∧
    (∀ root, encode root = "(" ++ toSexp "yaml" root ++ ")") ∧
    encode (Value.mapping [("name", Value.text "Alice"), ("age", Value.intV 30)]) =
      "((yaml:name \x27Alice) (yaml:age 30))" := by
  have he : ps.isEmpty = false := by
    cases ps with
    | nil => exact absurd rfl hne
    | cons kv rest => rfl
  exact ⟨by simp [toSexp, he, pairFrags_eq_map], fun root => rfl, by decide⟩

/-- Witness for claim C4 at a concrete one-pair mapping. -/
theorem c4_witness :
    (([("k", Value.intV 3)] : List (String × Value)) ≠ []) ∧
      toSexp "yaml" (Value.mapping [("k", Value.intV 3)]) =
        String.intercalate " "
          ([("k", Value.intV 3)].map fun kv =>
            "(" ++ "yaml" ++ ":" ++ kv.1 ++ " " ++ toSexp "yaml" kv.2 ++ ")") := by
  have hne : (([("k", Value.intV 3)] : List (String × Value)) ≠ []) := by simp
  exact ⟨hne, (c4_mapping_and_wrap "yaml" [("k", Value.intV 3)] hne).1⟩

/-- The escaping table exactly as claim C5 words it, one character at a time:
double quote and backslash escaped with a backslash, the three named control
characters by letter escapes, every other control character by a two-digit
lowercase hex escape, everything else passed through unchanged. -/
def escapeSpecChar (c : Char) : String :=
  if c = '"' then "\\\""
  else if c = '\\' then "\\\\"
  else if c = '\n' then "\\n"
  else if c = '\r' then "\\r"
  else if c = '\t' then "\\t"
  else if isCtrl c then "\\x" ++ hex2 c.toNat
  else String.singleton c

/-- Claim C5: the escaping of the quoted path substitutes characters exactly
as the specification table states, character by character, with everything
else, including non-ASCII text, passing through unchanged; checked also on a
concrete string exercising every case of the table. -/
theorem c5_escaping :
    (∀ s, escape_string s = String.join (s.data.map escapeSpecChar)) ∧
      escape_string "a\"b\\c\nd\re\tf\x01g\x7fhé" =
        "a\\\"b\\\\c\\nd\\re\\tf\\x01g\\x7fhé" := by
  have hchar : ∀ c : Char,
      (if escape_pattern c then escape_char c else String.singleton c) = escapeSpecChar c := by
    intro c
    by_cases h1 : c = '"'
    · subst h1; decide
    by_cases h2 : c = '\\'
    · subst h2; decide
    by_cases h3 : c = '\n'
    · subst h3; decide
    by_cases h4 : c = '\r'
    · subst h4; decide
    by_cases h5 : c = '\t'
    · subst h5; decide
    by_cases hc : isCtrl c = true
    · simp [escape_pattern, escape_char, escapeSpecChar, h1, h2, h3, h4, h5, hc, beq_iff_eq]
    · simp [escape_pattern, escape_char, escapeSpecChar, h1, h2, h3, h4, h5, hc, beq_iff_eq]
  constructor
  · intro s
    have hfun : (fun c => if escape_pattern c then escape_char c else String.singleton c) =
        escapeSpecChar := funext hchar
    simp only [escape_string, hfun]
  · decide

/-- Claim C6: a DateTime is encoded exactly as the Date obtained by
discarding its time of day; a Date encodes as make-date with the year
unpadded and month and day zero-padded to two digits; the specification
example 2024-03-07 is checked concretely. -/
theorem c6_dates (pfx : String) :
    (∀ d t1 t2 t3, toSexp pfx (Value.datetimeV ⟨d, t1, t2, t3⟩) = toSexp pfx (Value.dateV d)) ∧
    (∀ y mo dy, toSexp pfx (Value.dateV ⟨y, mo, dy⟩) =
      "(make-date " ++ toString y ++ " " ++ pad2 mo ++ " " ++ pad2 dy ++ ")") ∧
    toSexp pfx (Value.dateV ⟨2024, 3, 7⟩) = "(make-date 2024 03 07)" :=
  ⟨fun d t1 t2 t3 => rfl, fun y mo dy => rfl, rfl⟩

/-- Claim C8: on every finite Value tree the recursion of the encoder
finishes within a call depth equal to the node count of the tree and returns
the encoded string; the fuel-indexed reading of the recursion never reports
exhaustion. -/
theorem c8_termination (pfx : String) (v : Value) :
    toSexpF pfx (sizeV v) v = some (toSexp pfx v) :=
  toSexpF_complete pfx (sizeV v) v (Nat.le_refl _)

/-- Claim C9: the empty mapping and the empty sequence both encode as the
literal pair of parentheses. -/
theorem c9_empty_containers (pfx : String) :
    toSexp pfx (Value.mapping []) = "()" ∧ toSexp pfx (Value.sequence []) = "()" :=
  ⟨rfl, rfl⟩

/-- Claim C10: on a tree containing no Mapping at any depth the encoder
output is the same for every choice of the key prefix configuration. -/
theorem c10_prefix_independence (p q : String) (v : Value) (h : noMapping v = true) :
    toSexp p v = toSexp q v := by
  have h1 := toSexpF_complete p (sizeV v) v (Nat.le_refl _)
  have h2 := toSexpF_complete q (sizeV v) v (Nat.le_refl _)
  have h3 := toSexpF_irrel p q (sizeV v) v h
  rw [h1, h2] at h3
  exact Option.some.inj h3

/-- Witness for claim C10 at a concrete mapping-free tree and two different
prefixes. -/
theorem c10_witness :
    noMapping (Value.sequence [Value.intV 1, Value.text "a b", Value.boolV true]) = true ∧
      toSexp "yaml" (Value.sequence [Value.intV 1, Value.text "a b", Value.boolV true]) =
        toSexp "config" (Value.sequence [Value.intV 1, Value.text "a b", Value.boolV true]) :=
  ⟨by decide, c10_prefix_independence "yaml" "config" _ (by decide)⟩

end YamlToSexp
